import Mathlib

/-!
Verification of the definition-cache provider in
`rcsb/utils/chem/ChemCompMoleculeProvider.py` (py-rcsb_utils_chem).

The development shallowly embeds the provider's pure control flow:
records, the identifier-resolution rule, the dictionary-building loop of
`__readComponentDefinitions`, the cache-hit / cache-miss branches of
`__reload`, `testCache`, and `getMol`.  External I/O (`MarshalUtil.doImport`,
`FileUtil`) is represented by its outcome: a parse either yields a record
list or fails (`Except`), and the try/except placement of the Python code is
translated faithfully.
-/

namespace ChemComp

/-- One parsed chemical-component definition (a `DataContainer` in the
source).  `name` is the container-level name (`ccObj.getName()`);
`compIds` are the identity fields of the record's `chem_comp` category rows,
in order, as yielded by `PdbxChemCompIt` (modelled below); `payload`
distinguishes otherwise-identical records. -/
structure CcRecord where
  name : String
  compIds : List String
  payload : Nat
deriving DecidableEq, Repr

/-- The in-memory Definition Store: a Python `dict` keyed by identifier,
modelled as an insertion-ordered association list with unique keys. -/
abbrev Store := List (String × CcRecord)

/-- Python `d[k] = v` on a `dict`: replaces the value in place when the key
is present, otherwise appends the new pair. -/
def dictInsert : Store → String → CcRecord → Store
  | [], k, v => [(k, v)]
  | p :: t, k, v => if p.1 = k then (k, v) :: t else p :: dictInsert t k v

/-- Python `d.get`-style lookup: the value stored under `k`, if any. -/
def dictGet (d : Store) (k : String) : Option CcRecord :=
  (d.find? (fun p => p.1 = k)).map (fun p => p.2)

/-- Python `d[k]` on a `dict`: raises `KeyError` when the key is absent. -/
def dictGetItem (d : Store) (k : String) : Except Unit CcRecord :=
  match dictGet d k with
  | some v => Except.ok v
  | none => Except.error ()

/-- Modelled from the spec: `PdbxChemCompIt` (in `PdbxChemComp.py`, not part
of the excerpt) iterates the record's logical sub-entries, each exposing the
well-known identity field via `getId()`; `next(iter(...), None)` is the
first sub-entry or `None`.  Here: the head of `compIds`. -/
def firstCompId (r : CcRecord) : Option String :=
  r.compIds.head?

/-- The identifier-resolution rule of `__readComponentDefinitions`
(lines 135-137): `ccId = ccIt.getId() if ccIt else ccObj.getName()`. -/
def resolveId (r : CcRecord) : String :=
  match firstCompId r with
  | some i => i
  | none => r.name

/-- Python `l[:molLimit] if molLimit else l` (line 133): a limit of `0`
(also the embedding of `None`) is falsy and leaves the list whole. -/
def takeLimit (molLimit : Nat) (l : List CcRecord) : List CcRecord :=
  if molLimit ≠ 0 then l.take molLimit else l

/-- The keying loop of `__readComponentDefinitions` (lines 134-138):
`ccObjD[ccId] = ccObj` over the record list, starting from `{}`. -/
def keyRecords (l : List CcRecord) : Store :=
  l.foldl (fun d r => dictInsert d (resolveId r) r) []

/-- `__readComponentDefinitions` (lines 115-144).  The imports of the
primary and BIRD archives are represented by their outcomes.  The whole
body sits in one `try`: if the primary import raises, `ccObjD` is still
`{}`; if the BIRD import raises, the keying loop has not yet run and
`ccObjD` is still `{}`; only when both succeed are the concatenated,
limit-truncated records keyed. -/
def readComponentDefinitions (ccImport : Except Unit (List CcRecord))
    (birdImport : Option (Except Unit (List CcRecord))) (molLimit : Nat) :
    Store :=
  match ccImport with
  | Except.error _ => []
  | Except.ok rdCcObjL =>
    match birdImport with
    | some (Except.error _) => []
    | some (Except.ok birdCcObjL) =>
      keyRecords (takeLimit molLimit (rdCcObjL ++ birdCcObjL))
    | none => keyRecords (takeLimit molLimit rdCcObjL)

/-- Python string comparison on the underlying character sequences:
lexicographic by Unicode code point, the order `sorted` uses. -/
def charListLe : List Char → List Char → Bool
  | [], _ => true
  | _ :: _, [] => false
  | a :: as, b :: bs =>
    if a.toNat < b.toNat then true
    else if b.toNat < a.toNat then false
    else charListLe as bs

/-- Python `a <= b` on strings. -/
def pyStrLe (a b : String) : Bool :=
  charListLe a.data b.data

/-- Python `sorted` on a list of strings (ascending code-point order). -/
def pySorted (l : List String) : List String :=
  List.insertionSort (fun a b => pyStrLe a b = true) l

/-- The cache-hit branch of `__reload` (line 86):
`{k: rdCcObjD[k] for k in sorted(rdCcObjD.keys())[:molLimit]} if molLimit
else rdCcObjD`. -/
def reloadCacheHit (rdCcObjD : Store) (molLimit : Nat) : Store :=
  if molLimit ≠ 0 then
    ((pySorted (rdCcObjD.map Prod.fst)).take molLimit).filterMap
      (fun k => (dictGet rdCcObjD k).map (fun v => (k, v)))
  else rdCcObjD

/-- The filter step of the cache-miss branch of `__reload` (line 92):
`{ccId: ccObj for ccId, ccObj in rdCcObjD.items() if ccId in filterIdD}
if filterIdD else rdCcObjD`.  `filterIdD` is a Python dict of selected ids;
`none` embeds `None` and `some []` an empty dict, both falsy. -/
def applyFilter (filterIdD : Option (List String)) (rdCcObjD : Store) : Store :=
  match filterIdD with
  | some f => if f ≠ [] then rdCcObjD.filter (fun p => decide (p.1 ∈ f)) else rdCcObjD
  | none => rdCcObjD

/-- The cache-miss branch of `__reload` (lines 89-93): read both archives,
key the records, then apply the filter.  The subsequent `doExport` only
persists the artifact and does not change the returned store. -/
def reloadCacheMiss (ccImport : Except Unit (List CcRecord))
    (birdImport : Except Unit (List CcRecord)) (molLimit : Nat)
    (filterIdD : Option (List String)) : Store :=
  applyFilter filterIdD (readComponentDefinitions ccImport (some birdImport) molLimit)

/-- The environment `__reload` runs in: whether caching is requested,
whether the artifact file exists, what deserializing it would yield, and
the outcomes of importing the two source archives. -/
structure ReloadInput where
  useCache : Bool
  cacheArtifactExists : Bool
  cachedStore : Store
  ccImport : Except Unit (List CcRecord)
  birdImport : Except Unit (List CcRecord)

/-- `__reload` (lines 84-98): the cache-hit branch is taken exactly when
`useCache` holds and the artifact exists; otherwise a fresh build runs. -/
def reload (inp : ReloadInput) (molLimit : Nat)
    (filterIdD : Option (List String)) : Store :=
  if inp.useCache && inp.cacheArtifactExists then
    reloadCacheHit inp.cachedStore molLimit
  else
    reloadCacheMiss inp.ccImport inp.birdImport molLimit filterIdD

/-- Index of the last occurrence of `c` in `l` (Python `str.rfind`). -/
def lastIdxOf (l : List Char) (c : Char) : Option Nat :=
  match l with
  | [] => none
  | a :: t =>
    match lastIdxOf t c with
    | some i => some (i + 1)
    | none => if a = c then some 0 else none

/-- `os.path.splitext`: split at the last dot of the final path component;
the extension includes the dot; leading dots of the component never start
an extension. -/
def splitext (p : String) : String × String :=
  let l := p.data
  let start := match lastIdxOf l '/' with
    | some s => s + 1
    | none => 0
  match lastIdxOf l '.' with
  | none => (p, "")
  | some dotIdx =>
    if start ≤ dotIdx ∧
        (List.range (dotIdx - start)).any (fun j => l.getD (start + j) '.' ≠ '.') then
      (⟨l.take dotIdx⟩, ⟨l.drop dotIdx⟩)
    else (p, "")

/-- Lines 81-82 of `__reload`: `_, fExt = os.path.splitext(ccDataFilePath)`
then `ccDataFormat = "json" if fExt == "json" else "pickle"`. -/
def selectFormat (ccDataFilePath : String) : String :=
  if (splitext ccDataFilePath).2 = "json" then "json" else "pickle"

/-- Python truthiness of the held store: `None` and the empty dict are
falsy. -/
def truthyStore : Option Store → Bool
  | none => false
  | some d => decide (d ≠ [])

/-- `len` of the held store where it is evaluated (only behind a truthy
guard, so the `none` value is never observed). -/
def storeLen : Option Store → Nat
  | none => 0
  | some d => d.length

/-- `testCache` (lines 48-52): `ok = self.__ccMolD and len(self.__ccMolD)
>= minCount if minCount else self.__ccMolD is not None`, coerced to its
truthiness. -/
def testCache (ccMolD : Option Store) (minCount : Nat) : Bool :=
  if minCount ≠ 0 then truthyStore ccMolD && decide (storeLen ccMolD ≥ minCount)
  else ccMolD.isSome

/-- `testCache` called with no arguments: the declared default is
`minCount=29000` (line 48). -/
def testCacheDefault (ccMolD : Option Store) : Bool :=
  testCache ccMolD 29000

/-- `getMol` (lines 57-62): `self.__ccMolD[ccId]` inside `try`, returning
`None` when the subscript raises. -/
def getMol (ccMolD : Store) (ccId : String) : Option CcRecord :=
  match dictGetItem ccMolD ccId with
  | Except.ok v => some v
  | Except.error _ => none

/-- A sample primary-archive record keyed `MOLA`. -/
def recA : CcRecord := ⟨"contA", ["MOLA"], 0⟩

/-- A sample primary-archive record keyed `MOLB`. -/
def recB : CcRecord := ⟨"contB", ["MOLB"], 1⟩

/-- A sample supplementary-archive record that also resolves to `MOLA`. -/
def recA2 : CcRecord := ⟨"contA2", ["MOLA"], 2⟩

/-- A sample record with no `chem_comp` rows, keyed by container name. -/
def recNoIt : CcRecord := ⟨"contC", [], 3⟩

/-! ## Supporting lemmas about the dictionary-building loop -/

theorem dictGet_cons (p : String × CcRecord) (t : Store) (x : String) :
    dictGet (p :: t) x = if p.1 = x then some p.2 else dictGet t x := by
  by_cases h : p.1 = x
  · rw [dictGet, List.find?_cons_of_pos _ (by simp [h]), if_pos h]
    rfl
  · rw [dictGet, List.find?_cons_of_neg _ (by simp [h]), if_neg h]
    rfl

theorem dictGet_dictInsert (d : Store) (k : String) (v : CcRecord) (x : String) :
    dictGet (dictInsert d k v) x = if x = k then some v else dictGet d x := by
  induction d with
  | nil =>
    rw [show dictInsert [] k v = [(k, v)] from rfl, dictGet_cons]
    by_cases hx : x = k
    · rw [if_pos (hx ▸ rfl), if_pos hx]
    · have hkx : ¬((k, v).1 = x) := fun h => hx h.symm
      rw [if_neg hkx, if_neg hx]
  | cons p t ih =>
    rw [show dictInsert (p :: t) k v
        = if p.1 = k then (k, v) :: t else p :: dictInsert t k v from rfl]
    by_cases hp : p.1 = k
    · rw [if_pos hp, dictGet_cons]
      by_cases hx : x = k
      · rw [if_pos (show ((k, v) : String × CcRecord).1 = x from hx ▸ rfl), if_pos hx]
      · have hkx : ¬(((k, v) : String × CcRecord).1 = x) := fun h => hx h.symm
        have hpx : ¬(p.1 = x) := fun h => hx (hp.symm.trans h).symm
        rw [if_neg hkx, if_neg hx, dictGet_cons, if_neg hpx]
    · rw [if_neg hp, dictGet_cons, dictGet_cons]
      by_cases hx : p.1 = x
      · have hxk : ¬x = k := fun h => hp (hx.trans h)
        rw [if_pos hx, if_pos hx, if_neg hxk]
      · rw [if_neg hx, if_neg hx, ih]

theorem getLast?_cons_or {α : Type} (a : α) (l : List α) :
    (a :: l).getLast? = Option.or l.getLast? (some a) := by
  cases h : l.getLast? with
  | none =>
    have hl : l = [] := by
      cases l with
      | nil => rfl
      | cons b t =>
        rw [List.getLast?_cons] at h
        simp at h
    subst hl
    rfl
  | some y =>
    rw [List.getLast?_cons, h]
    rfl

/-- One step of the keying loop, seen through `dictGet`: folding the record
list over an initial dictionary yields, at key `x`, the last record of the
list resolving to `x`, else the initial dictionary's value. -/
theorem dictGet_keyFold (l : List CcRecord) (d : Store) (x : String) :
    dictGet (List.foldl (fun acc r => dictInsert acc (resolveId r) r) d l) x =
      Option.or ((l.filter (fun r => decide (resolveId r = x))).getLast?) (dictGet d x) := by
  induction l generalizing d with
  | nil => simp
  | cons r t ih =>
    rw [List.foldl_cons, ih, dictGet_dictInsert]
    by_cases h : resolveId r = x
    · have hfc : List.filter (fun r => decide (resolveId r = x)) (r :: t)
          = r :: List.filter (fun r => decide (resolveId r = x)) t := by
        simp [List.filter_cons, h]
      rw [hfc, getLast?_cons_or, Option.or_assoc, if_pos h.symm]
      rfl
    · have hfc : List.filter (fun r => decide (resolveId r = x)) (r :: t)
          = List.filter (fun r => decide (resolveId r = x)) t := by
        simp [List.filter_cons, h]
      have hx : ¬x = resolveId r := fun hh => h hh.symm
      rw [hfc, if_neg hx]

/-- Lookup in the freshly keyed store: the last record of the input stream
resolving to the key wins. -/
theorem dictGet_keyRecords (l : List CcRecord) (x : String) :
    dictGet (keyRecords l) x = (l.filter (fun r => decide (resolveId r = x))).getLast? := by
  rw [keyRecords, dictGet_keyFold]
  simp [dictGet]

theorem mem_dictInsert (d : Store) (k : String) (v : CcRecord) (q : String × CcRecord)
    (h : q ∈ dictInsert d k v) : q = (k, v) ∨ q ∈ d := by
  induction d with
  | nil => simpa [dictInsert] using h
  | cons p t ih =>
    rw [show dictInsert (p :: t) k v
        = if p.1 = k then (k, v) :: t else p :: dictInsert t k v from rfl] at h
    by_cases hp : p.1 = k
    · rw [if_pos hp] at h
      rcases List.mem_cons.mp h with h1 | h2
      · exact Or.inl h1
      · exact Or.inr (List.mem_cons_of_mem _ h2)
    · rw [if_neg hp] at h
      rcases List.mem_cons.mp h with h1 | h2
      · exact Or.inr (h1 ▸ List.mem_cons_self _ _)
      · rcases ih h2 with h3 | h4
        · exact Or.inl h3
        · exact Or.inr (List.mem_cons_of_mem _ h4)

/-- Every entry of the keyed store comes from the record stream and is keyed
by its resolved identifier (or was already in the initial dictionary). -/
theorem mem_keyFold (l : List CcRecord) (d : Store) (q : String × CcRecord)
    (h : q ∈ List.foldl (fun acc r => dictInsert acc (resolveId r) r) d l) :
    q ∈ d ∨ (q.2 ∈ l ∧ q.1 = resolveId q.2) := by
  induction l generalizing d with
  | nil => exact Or.inl h
  | cons r t ih =>
    rw [List.foldl_cons] at h
    rcases ih _ h with h1 | h2
    · rcases mem_dictInsert _ _ _ _ h1 with h3 | h4
      · subst h3
        exact Or.inr ⟨List.mem_cons_self _ _, rfl⟩
      · exact Or.inl h4
    · exact Or.inr ⟨List.mem_cons_of_mem _ h2.1, h2.2⟩

theorem mem_keyRecords (l : List CcRecord) (q : String × CcRecord)
    (h : q ∈ keyRecords l) : q.2 ∈ l ∧ q.1 = resolveId q.2 := by
  rcases mem_keyFold l [] q h with h1 | h2
  · simp at h1
  · exact h2

theorem length_dictInsert_le (d : Store) (k : String) (v : CcRecord) :
    (dictInsert d k v).length ≤ d.length + 1 := by
  induction d with
  | nil => simp [dictInsert]
  | cons p t ih =>
    rw [show dictInsert (p :: t) k v
        = if p.1 = k then (k, v) :: t else p :: dictInsert t k v from rfl]
    by_cases hp : p.1 = k
    · rw [if_pos hp]
      simp
    · rw [if_neg hp]
      simpa using Nat.succ_le_succ ih

theorem length_keyFold_le (l : List CcRecord) (d : Store) :
    (List.foldl (fun acc r => dictInsert acc (resolveId r) r) d l).length
      ≤ d.length + l.length := by
  induction l generalizing d with
  | nil => simp
  | cons r t ih =>
    rw [List.foldl_cons]
    have h1 := ih (dictInsert d (resolveId r) r)
    have h2 := length_dictInsert_le d (resolveId r) r
    simp only [List.length_cons]
    omega

theorem length_keyRecords_le (l : List CcRecord) :
    (keyRecords l).length ≤ l.length := by
  simpa using length_keyFold_le l []

theorem mem_keys_dictInsert (d : Store) (k : String) (v : CcRecord) (x : String)
    (h : x ∈ (dictInsert d k v).map Prod.fst) : x = k ∨ x ∈ d.map Prod.fst := by
  rcases List.mem_map.mp h with ⟨q, hq, hqx⟩
  rcases mem_dictInsert _ _ _ _ hq with h1 | h2
  · left
    rw [← hqx, h1]
  · right
    exact List.mem_map.mpr ⟨q, h2, hqx⟩

theorem nodup_keys_dictInsert (d : Store) (k : String) (v : CcRecord)
    (hd : (d.map Prod.fst).Nodup) : ((dictInsert d k v).map Prod.fst).Nodup := by
  induction d with
  | nil => simp [dictInsert]
  | cons p t ih =>
    rw [List.map_cons, List.nodup_cons] at hd
    rw [show dictInsert (p :: t) k v
        = if p.1 = k then (k, v) :: t else p :: dictInsert t k v from rfl]
    by_cases hp : p.1 = k
    · rw [if_pos hp, List.map_cons, List.nodup_cons]
      exact ⟨hp ▸ hd.1, hd.2⟩
    · rw [if_neg hp, List.map_cons, List.nodup_cons]
      refine ⟨fun hmem => ?_, ih hd.2⟩
      rcases mem_keys_dictInsert _ _ _ _ hmem with h1 | h2
      · exact hp h1
      · exact hd.1 h2

theorem nodup_keys_keyFold (l : List CcRecord) (d : Store)
    (hd : (d.map Prod.fst).Nodup) :
    (((List.foldl (fun acc r => dictInsert acc (resolveId r) r) d l)).map Prod.fst).Nodup := by
  induction l generalizing d with
  | nil => exact hd
  | cons r t ih =>
    rw [List.foldl_cons]
    exact ih _ (nodup_keys_dictInsert _ _ _ hd)

/-- Key uniqueness: the keyed Definition Store never holds two entries with
the same identifier. -/
theorem nodup_keys_keyRecords (l : List CcRecord) :
    ((keyRecords l).map Prod.fst).Nodup := by
  simpa [keyRecords] using nodup_keys_keyFold l [] (by simp)

/-- On a store with unique keys, the entries at key `x` are exactly the one
entry that `dictGet` finds. -/
theorem filter_key_of_nodup (d : Store) (x : String) (v : CcRecord)
    (hd : (d.map Prod.fst).Nodup) (h : dictGet d x = some v) :
    d.filter (fun p => decide (p.1 = x)) = [(x, v)] := by
  induction d with
  | nil => simp [dictGet] at h
  | cons p t ih =>
    rcases p with ⟨pk, pv⟩
    rw [dictGet_cons] at h
    rw [List.map_cons, List.nodup_cons] at hd
    by_cases hp : pk = x
    · rw [if_pos hp] at h
      have hv : pv = v := Option.some.inj h
      have hft : t.filter (fun p => decide (p.1 = x)) = [] := by
        rw [List.filter_eq_nil_iff]
        intro q hq
        simp only [decide_eq_true_eq]
        intro hqx
        exact hd.1 (hp ▸ hqx ▸ List.mem_map.mpr ⟨q, hq, rfl⟩)
      rw [List.filter_cons, if_pos (by simp [hp]), hft, hp, hv]
    · rw [if_neg hp] at h
      rw [List.filter_cons, if_neg (by simp [hp])]
      exact ih hd.2 h

/-! ## The code-point order used by Python `sorted` -/

theorem charListLe_total (a b : List Char) :
    charListLe a b = true ∨ charListLe b a = true := by
  induction a generalizing b with
  | nil => exact Or.inl rfl
  | cons x xs ih =>
    cases b with
    | nil => exact Or.inr rfl
    | cons y ys =>
      by_cases h1 : x.toNat < y.toNat
      · exact Or.inl (by simp [charListLe, h1])
      · by_cases h2 : y.toNat < x.toNat
        · exact Or.inr (by simp [charListLe, h2])
        · rcases ih ys with h | h
          · exact Or.inl (by simp [charListLe, h1, h2, h])
          · exact Or.inr (by simp [charListLe, h1, h2, h])

theorem charListLe_trans (a b c : List Char) (hab : charListLe a b = true)
    (hbc : charListLe b c = true) : charListLe a c = true := by
  induction a generalizing b c with
  | nil => rfl
  | cons x xs ih =>
    cases b with
    | nil => simp [charListLe] at hab
    | cons y ys =>
      cases c with
      | nil => simp [charListLe] at hbc
      | cons z zs =>
        simp only [charListLe] at hab hbc ⊢
        by_cases h1 : x.toNat < y.toNat
        · by_cases h2 : y.toNat < z.toNat
          · simp [Nat.lt_trans h1 h2]
          · by_cases h3 : z.toNat < y.toNat
            · rw [if_neg h2, if_pos h3] at hbc
              simp at hbc
            · have hxz : x.toNat < z.toNat := by omega
              simp [hxz]
        · by_cases h1' : y.toNat < x.toNat
          · rw [if_neg h1, if_pos h1'] at hab
            simp at hab
          · by_cases h2 : y.toNat < z.toNat
            · have hxz : x.toNat < z.toNat := by omega
              simp [hxz]
            · by_cases h3 : z.toNat < y.toNat
              · rw [if_neg h2, if_pos h3] at hbc
                simp at hbc
              · rw [if_neg h1, if_neg h1'] at hab
                rw [if_neg h2, if_neg h3] at hbc
                have h4 : ¬x.toNat < z.toNat := by omega
                have h5 : ¬z.toNat < x.toNat := by omega
                rw [if_neg h4, if_neg h5]
                exact ih ys zs hab hbc

theorem pyStrLe_total (a b : String) : pyStrLe a b = true ∨ pyStrLe b a = true :=
  charListLe_total a.data b.data

theorem pyStrLe_trans (a b c : String) (hab : pyStrLe a b = true)
    (hbc : pyStrLe b c = true) : pyStrLe a c = true :=
  charListLe_trans a.data b.data c.data hab hbc

instance : IsTotal String (fun a b => pyStrLe a b = true) :=
  ⟨pyStrLe_total⟩

instance : IsTrans String (fun a b => pyStrLe a b = true) :=
  ⟨pyStrLe_trans⟩

theorem pySorted_perm (l : List String) : (pySorted l).Perm l :=
  List.perm_insertionSort _ l

theorem pySorted_sorted (l : List String) :
    List.Sorted (fun a b => pyStrLe a b = true) (pySorted l) :=
  List.sorted_insertionSort _ l

/-! ## Cache-hit truncation helpers -/

theorem dictGet_isSome_of_mem_keys (d : Store) (k : String)
    (h : k ∈ d.map Prod.fst) : (dictGet d k).isSome = true := by
  rcases List.mem_map.mp h with ⟨q, hq, hk⟩
  have hfind : (List.find? (fun p => decide (p.1 = k)) d).isSome = true :=
    List.find?_isSome.mpr ⟨q, hq, by simp [hk]⟩
  rw [dictGet]
  cases hf : List.find? (fun p => decide (p.1 = k)) d with
  | none =>
    rw [hf] at hfind
    simp at hfind
  | some p => rfl

theorem keys_filterMap_dictGet (S : List String) (d : Store)
    (h : ∀ k ∈ S, (dictGet d k).isSome = true) :
    (S.filterMap (fun k => (dictGet d k).map (fun v => (k, v)))).map Prod.fst = S := by
  induction S with
  | nil => rfl
  | cons k t ih =>
    have hk := h k (List.mem_cons_self _ _)
    cases hv : dictGet d k with
    | none =>
      rw [hv] at hk
      simp at hk
    | some v =>
      rw [List.filterMap_cons, hv]
      simpa using ih (fun k hk => h k (List.mem_cons_of_mem _ hk))

theorem dictGet_of_mem_filterMap (S : List String) (d : Store) (p : String × CcRecord)
    (h : p ∈ S.filterMap (fun k => (dictGet d k).map (fun v => (k, v)))) :
    dictGet d p.1 = some p.2 := by
  rcases List.mem_filterMap.mp h with ⟨k, _, hf⟩
  cases hv : dictGet d k with
  | none =>
    rw [hv] at hf
    simp at hf
  | some v =>
    rw [hv] at hf
    have hp : (k, v) = p := by simpa using hf
    rw [← hp]
    exact hv

/-! ## Claim theorems -/

/-- Claim C1, counterexample: with a one-record primary archive parsing
successfully and the BIRD archive failing to parse, the fresh build returns
the empty store — the record keyed from the primary archive is not
retained, because the keying loop sits after the BIRD import inside the
same `try` block. -/
theorem c1_bird_failure_counterexample :
    readComponentDefinitions (Except.ok [recA]) (some (Except.error ())) 0 = [] ∧
    dictGet (readComponentDefinitions (Except.ok [recA]) (some (Except.error ())) 0)
      (resolveId recA) = none := by
  exact ⟨rfl, rfl⟩

/-- Claim C1 (amended): a parse failure during a fresh build is caught and a
store is still returned (no exception propagates), but when the
supplementary (BIRD) archive fails to parse the entire result degrades to
the empty store — primary records are lost, not kept.  Only when both
archives parse does every primary record's identifier appear in the
store. -/
theorem c1_parse_failure_degrades_to_empty (l1 : List CcRecord) (molLimit : Nat)
    (r : CcRecord) (h : r ∈ l1) :
    readComponentDefinitions (Except.ok l1) (some (Except.error ())) molLimit = [] ∧
    ∀ l2, (dictGet (readComponentDefinitions (Except.ok l1) (some (Except.ok l2)) 0)
      (resolveId r)).isSome = true := by
  refine ⟨rfl, fun l2 => ?_⟩
  have hred : readComponentDefinitions (Except.ok l1) (some (Except.ok l2)) 0
      = keyRecords (l1 ++ l2) := by
    simp [readComponentDefinitions, takeLimit]
  rw [hred, dictGet_keyRecords]
  have hmem : r ∈ (l1 ++ l2).filter (fun q => decide (resolveId q = resolveId r)) :=
    List.mem_filter.mpr ⟨List.mem_append_left _ h, by simp⟩
  exact List.getLast?_isSome.mpr (List.ne_nil_of_mem hmem)

theorem c1_parse_failure_degrades_to_empty_witness :
    recA ∈ [recA] ∧
    readComponentDefinitions (Except.ok [recA]) (some (Except.error ())) 3 = [] ∧
    (dictGet (readComponentDefinitions (Except.ok [recA]) (some (Except.ok [recB])) 0)
      (resolveId recA)).isSome = true :=
  ⟨by simp,
   (c1_parse_failure_degrades_to_empty [recA] 3 recA (by simp)).1,
   (c1_parse_failure_degrades_to_empty [recA] 3 recA (by simp)).2 [recB]⟩

/-- Claim C2, counterexample: called with no arguments, `testCache` uses its
declared default `minCount=29000`, so it is falsy on a non-null empty
store, where the claim predicts true. -/
theorem c2_no_args_empty_store_counterexample :
    testCacheDefault (some []) = false := by
  rfl

/-- Claim C2 (amended): the validation operation is truthy iff the store is
non-null, non-empty and of size at least `minCount` when `minCount` is
nonzero, and iff the store is non-null when `minCount` is zero; the default
is `minCount=29000`, so a call with no arguments is falsy on any store
smaller than 29000 entries, including a non-null empty one. -/
theorem c2_testCache_characterization (d : Option Store) (m : Nat) :
    (testCache d m = true ↔
      ((m = 0 ∧ d.isSome = true) ∨
       (m ≠ 0 ∧ ∃ s, d = some s ∧ s ≠ [] ∧ m ≤ s.length))) ∧
    testCacheDefault d = testCache d 29000 := by
  refine ⟨?_, rfl⟩
  by_cases hm : m = 0
  · subst hm
    simp [testCache]
  · cases d with
    | none => simp [testCache, hm, truthyStore]
    | some s => simp [testCache, hm, truthyStore, storeLen, and_assoc]

/-- Claim C3 (code bug): `os.path.splitext` returns the extension with its
leading dot (`".json"`), but line 82 compares that extension against
`"json"` without the dot, so even an artifact path ending in `.json`
selects the binary (pickle) format — the structured-text branch is
unreachable as written. -/
theorem c3_json_extension_selects_pickle :
    (splitext "chem_comp/cc-data.json").2 = ".json" ∧
    selectFormat "chem_comp/cc-data.json" = "pickle" ∧
    selectFormat "chem_comp/cc-data.pic" = "pickle" := by
  exact ⟨rfl, rfl, rfl⟩

/-- Claim C4, counterexample: an empty Filter Set is falsy in the guard
`if filterIdD`, so it is ignored and the CacheMiss build keeps its full key
set, where the claim predicts the empty intersection. -/
theorem c4_empty_filter_ignored_counterexample :
    reloadCacheMiss (Except.ok [recA]) (Except.ok []) 0 (some [])
      = [("MOLA", recA)] := by
  rfl

/-- Claim C4 (amended): for every CacheMiss build in which a non-empty
Filter Set `S` is supplied, the key set of the resulting Definition Store is
exactly the intersection of `S` with the key set the same build produces
with no filter; an empty Filter Set is falsy and is ignored, leaving the
store unfiltered. -/
theorem c4_filter_law (cc bird : Except Unit (List CcRecord)) (molLimit : Nat)
    (S : List String) (hS : S ≠ []) (k : String) :
    (k ∈ (reloadCacheMiss cc bird molLimit (some S)).map Prod.fst ↔
      k ∈ S ∧ k ∈ (reloadCacheMiss cc bird molLimit none).map Prod.fst) ∧
    reloadCacheMiss cc bird molLimit (some []) =
      reloadCacheMiss cc bird molLimit none := by
  constructor
  · simp only [reloadCacheMiss, applyFilter, if_pos hS]
    constructor
    · intro h
      rcases List.mem_map.mp h with ⟨p, hp, hk⟩
      rcases List.mem_filter.mp hp with ⟨hpd, hpS⟩
      subst hk
      exact ⟨by simpa using hpS, List.mem_map.mpr ⟨p, hpd, rfl⟩⟩
    · rintro ⟨hkS, hkd⟩
      rcases List.mem_map.mp hkd with ⟨p, hp, hk⟩
      subst hk
      exact List.mem_map.mpr ⟨p, List.mem_filter.mpr ⟨hp, by simpa using hkS⟩, rfl⟩
  · simp [reloadCacheMiss, applyFilter]

theorem c4_filter_law_witness :
    (["MOLB"] : List String) ≠ [] ∧
    (("MOLB" ∈ (reloadCacheMiss (Except.ok [recA, recB]) (Except.ok []) 0
        (some ["MOLB"])).map Prod.fst ↔
      "MOLB" ∈ (["MOLB"] : List String) ∧
        "MOLB" ∈ (reloadCacheMiss (Except.ok [recA, recB]) (Except.ok []) 0
          none).map Prod.fst) ∧
     reloadCacheMiss (Except.ok [recA, recB]) (Except.ok []) 0 (some []) =
       reloadCacheMiss (Except.ok [recA, recB]) (Except.ok []) 0 none) :=
  ⟨by simp,
   c4_filter_law (Except.ok [recA, recB]) (Except.ok []) 0 ["MOLB"] (by simp) "MOLB"⟩

/-- Claim C5: on a cache hit (useCache true and the artifact present) with a
Molecule Limit `N` configured, the resulting store has at most `N` entries
and consists of exactly the first `N` keys of the deserialized store in
ascending sorted order, each paired with its deserialized record. -/
theorem c5_cache_hit_sorted_truncation (inp : ReloadInput) (N : Nat)
    (filterIdD : Option (List String)) (hU : inp.useCache = true)
    (hE : inp.cacheArtifactExists = true) (hN : 0 < N) :
    (reload inp N filterIdD).map Prod.fst
        = (pySorted (inp.cachedStore.map Prod.fst)).take N ∧
    (reload inp N filterIdD).length ≤ N ∧
    List.Sorted (fun a b => pyStrLe a b = true) ((reload inp N filterIdD).map Prod.fst) ∧
    ∀ p ∈ reload inp N filterIdD, dictGet inp.cachedStore p.1 = some p.2 := by
  have hreload : reload inp N filterIdD = reloadCacheHit inp.cachedStore N := by
    simp [reload, hU, hE]
  have hNne : N ≠ 0 := Nat.pos_iff_ne_zero.mp hN
  have hch : reloadCacheHit inp.cachedStore N
      = ((pySorted (inp.cachedStore.map Prod.fst)).take N).filterMap
          (fun k => (dictGet inp.cachedStore k).map (fun v => (k, v))) := by
    simp [reloadCacheHit, hNne]
  have hmemkeys : ∀ k ∈ (pySorted (inp.cachedStore.map Prod.fst)).take N,
      (dictGet inp.cachedStore k).isSome = true := by
    intro k hk
    have h1 : k ∈ pySorted (inp.cachedStore.map Prod.fst) := List.take_subset _ _ hk
    have h2 : k ∈ inp.cachedStore.map Prod.fst := (pySorted_perm _).mem_iff.mp h1
    exact dictGet_isSome_of_mem_keys _ _ h2
  have hkeys : (reload inp N filterIdD).map Prod.fst
      = (pySorted (inp.cachedStore.map Prod.fst)).take N := by
    rw [hreload, hch]
    exact keys_filterMap_dictGet _ _ hmemkeys
  refine ⟨hkeys, ?_, ?_, ?_⟩
  · have hlen := congrArg List.length hkeys
    rw [List.length_map] at hlen
    rw [hlen]
    exact List.length_take_le _ _
  · rw [hkeys]
    exact List.Pairwise.sublist (List.take_sublist _ _) (pySorted_sorted _)
  · intro p hp
    rw [hreload, hch] at hp
    exact dictGet_of_mem_filterMap _ _ _ hp

/-- A cache-hit environment holding a two-entry deserialized store whose
stream order (`B` before `A`) differs from sorted key order. -/
def sampleCachedInput : ReloadInput :=
  ⟨true, true, [("B", recB), ("A", recA)], Except.ok [], Except.ok []⟩

theorem c5_cache_hit_sorted_truncation_witness :
    sampleCachedInput.useCache = true ∧
    sampleCachedInput.cacheArtifactExists = true ∧
    0 < 1 ∧
    ((reload sampleCachedInput 1 none).map Prod.fst
        = (pySorted (sampleCachedInput.cachedStore.map Prod.fst)).take 1 ∧
     (reload sampleCachedInput 1 none).length ≤ 1 ∧
     List.Sorted (fun a b => pyStrLe a b = true)
       ((reload sampleCachedInput 1 none).map Prod.fst) ∧
     ∀ p ∈ reload sampleCachedInput 1 none,
       dictGet sampleCachedInput.cachedStore p.1 = some p.2) :=
  ⟨rfl, rfl, by decide,
   c5_cache_hit_sorted_truncation sampleCachedInput 1 none rfl rfl (by decide)⟩

/-- Claim C6: a fresh build with Molecule Limit `N` keys only the first `N`
records of the combined primary-then-supplementary stream, before
identifier keying, so the resulting store has at most `N` entries, each
drawn from the head of the combined stream and keyed by its resolved
identifier. -/
theorem c6_fresh_build_limit (l1 l2 : List CcRecord) (N : Nat) (hN : 0 < N) :
    (readComponentDefinitions (Except.ok l1) (some (Except.ok l2)) N).length ≤ N ∧
    ∀ p ∈ readComponentDefinitions (Except.ok l1) (some (Except.ok l2)) N,
      p.2 ∈ (l1 ++ l2).take N ∧ p.1 = resolveId p.2 := by
  have hred : readComponentDefinitions (Except.ok l1) (some (Except.ok l2)) N
      = keyRecords ((l1 ++ l2).take N) := by
    simp [readComponentDefinitions, takeLimit, Nat.pos_iff_ne_zero.mp hN]
  constructor
  · rw [hred]
    calc (keyRecords ((l1 ++ l2).take N)).length
        ≤ ((l1 ++ l2).take N).length := length_keyRecords_le _
      _ ≤ N := List.length_take_le _ _
  · intro p hp
    rw [hred] at hp
    exact mem_keyRecords _ _ hp

theorem c6_fresh_build_limit_witness :
    0 < 1 ∧
    ((readComponentDefinitions (Except.ok [recA, recB]) (some (Except.ok [])) 1).length
        ≤ 1 ∧
     ∀ p ∈ readComponentDefinitions (Except.ok [recA, recB]) (some (Except.ok [])) 1,
       p.2 ∈ ([recA, recB] ++ []).take 1 ∧ p.1 = resolveId p.2) :=
  ⟨by decide, c6_fresh_build_limit [recA, recB] [] 1 (by decide)⟩

/-- Claim C7: supplementary (BIRD) records are appended after the primary
records and keyed last, so when one primary and one supplementary record
resolve to the same identifier the fresh store holds exactly one entry
under that identifier, carrying the supplementary record's content. -/
theorem c7_last_write_wins (l1 l2 : List CcRecord) (x : String) (a b : CcRecord)
    (h1 : l1.filter (fun r => decide (resolveId r = x)) = [a])
    (h2 : l2.filter (fun r => decide (resolveId r = x)) = [b]) :
    (readComponentDefinitions (Except.ok l1) (some (Except.ok l2)) 0).filter
        (fun p => decide (p.1 = x)) = [(x, b)] := by
  have hred : readComponentDefinitions (Except.ok l1) (some (Except.ok l2)) 0
      = keyRecords (l1 ++ l2) := by
    simp [readComponentDefinitions, takeLimit]
  have hget : dictGet (keyRecords (l1 ++ l2)) x = some b := by
    rw [dictGet_keyRecords, List.filter_append, h1, h2]
    rfl
  rw [hred]
  exact filter_key_of_nodup _ _ _ (nodup_keys_keyRecords _) hget

theorem c7_last_write_wins_witness :
    [recA].filter (fun r => decide (resolveId r = "MOLA")) = [recA] ∧
    [recA2].filter (fun r => decide (resolveId r = "MOLA")) = [recA2] ∧
    (readComponentDefinitions (Except.ok [recA]) (some (Except.ok [recA2])) 0).filter
        (fun p => decide (p.1 = "MOLA")) = [("MOLA", recA2)] :=
  ⟨by decide, by decide,
   c7_last_write_wins [recA] [recA2] "MOLA" recA recA2 (by decide) (by decide)⟩

/-- Claim C8: every record of a fresh build is keyed by a two-tier rule —
the identity field of its first logical sub-entry when one exists, else the
record's container-level name — and a record lacking the primary identity
source is still keyed (under its name) rather than dropped. -/
theorem c8_identifier_fallback (l : List CcRecord) (r : CcRecord) (h : r ∈ l) :
    (∀ i t, r.compIds = i :: t → resolveId r = i) ∧
    (r.compIds = [] → resolveId r = r.name) ∧
    (dictGet (keyRecords l) (resolveId r)).isSome = true := by
  refine ⟨?_, ?_, ?_⟩
  · intro i t hit
    simp [resolveId, firstCompId, hit]
  · intro hnil
    simp [resolveId, firstCompId, hnil]
  · rw [dictGet_keyRecords]
    have hmem : r ∈ l.filter (fun q => decide (resolveId q = resolveId r)) :=
      List.mem_filter.mpr ⟨h, by simp⟩
    exact List.getLast?_isSome.mpr (List.ne_nil_of_mem hmem)

theorem c8_identifier_fallback_witness :
    recNoIt ∈ [recNoIt] ∧
    ((∀ i t, recNoIt.compIds = i :: t → resolveId recNoIt = i) ∧
     (recNoIt.compIds = [] → resolveId recNoIt = recNoIt.name) ∧
     (dictGet (keyRecords [recNoIt]) (resolveId recNoIt)).isSome = true) :=
  ⟨by simp, c8_identifier_fallback [recNoIt] recNoIt (by simp)⟩

/-- Claim C9: `getMol` is total — for every store and every identifier it
either returns the record stored under that identifier or returns `none`;
the subscript's `KeyError` on an absent key is caught, never propagated. -/
theorem c9_getMol_total (d : Store) (ccId : String) :
    (getMol d ccId = none ∧ ∀ v, (ccId, v) ∉ d) ∨
    (∃ v, getMol d ccId = some v ∧ (ccId, v) ∈ d) := by
  have hgm : getMol d ccId = dictGet d ccId := by
    rw [getMol, dictGetItem]
    cases dictGet d ccId <;> rfl
  cases hd : dictGet d ccId with
  | none =>
    left
    refine ⟨hgm.trans hd, fun v hv => ?_⟩
    rw [dictGet, Option.map_eq_none'] at hd
    have := List.find?_eq_none.mp hd (ccId, v) hv
    simp at this
  | some v =>
    right
    refine ⟨v, hgm.trans hd, ?_⟩
    rw [dictGet] at hd
    rcases Option.map_eq_some'.mp hd with ⟨p, hfp, hpv⟩
    have hmem := List.mem_of_find?_eq_some hfp
    have hkey := List.find?_some hfp
    rcases p with ⟨pk, pv⟩
    simp only [decide_eq_true_eq] at hkey
    rw [← hkey, ← hpv]
    exact hmem

/-- Claim C10: a Molecule Limit of 0 (the constructor default) means no
limit on both terminal paths — the cache-hit reload returns the
deserialized store untruncated, and the fresh build keys every record of
the combined stream, so the store is never truncated to zero entries. -/
theorem c10_zero_limit_means_no_limit (d : Store) :
    reloadCacheHit d 0 = d ∧
    ∀ l1 l2 (r : CcRecord), r ∈ l1 ++ l2 →
      (dictGet (readComponentDefinitions (Except.ok l1) (some (Except.ok l2)) 0)
        (resolveId r)).isSome = true := by
  refine ⟨by simp [reloadCacheHit], fun l1 l2 r h => ?_⟩
  have hred : readComponentDefinitions (Except.ok l1) (some (Except.ok l2)) 0
      = keyRecords (l1 ++ l2) := by
    simp [readComponentDefinitions, takeLimit]
  rw [hred, dictGet_keyRecords]
  exact List.getLast?_isSome.mpr
    (List.ne_nil_of_mem (List.mem_filter.mpr ⟨h, by simp⟩))

theorem c10_zero_limit_means_no_limit_witness :
    recA ∈ [recA] ++ [recB] ∧
    (dictGet (readComponentDefinitions (Except.ok [recA]) (some (Except.ok [recB])) 0)
      (resolveId recA)).isSome = true :=
  ⟨by simp, (c10_zero_limit_means_no_limit []).2 [recA] [recB] recA (by simp)⟩

end ChemComp
